import Mathlib

/-!
Verification of the LumixEngine animation runtime
(`src/animation/animation_scene.cpp`, `AnimationSceneImpl`).

The C++ code is shallowly embedded: float arithmetic is idealized as exact
rational (or quadratic-extension) arithmetic, state mutation becomes explicit
state passing, and fallible operations return `Option`/`Except`.  Every
definition mirrors the corresponding source function; math-library types that
are only declared in the repository (Vec3, Quat, Time) are modelled from the
spec and standard quaternion algebra.
-/

namespace LumixAnim

/-- 3-component vector over a commutative ring, mirroring Lumix `Vec3`
(float components idealized as exact scalars). -/
@[ext]
structure V3 (K : Type) where
  x : K
  y : K
  z : K
deriving DecidableEq, Repr

namespace V3

variable {K : Type} [CommRing K]

def add (a b : V3 K) : V3 K := ⟨a.x + b.x, a.y + b.y, a.z + b.z⟩

def sub (a b : V3 K) : V3 K := ⟨a.x - b.x, a.y - b.y, a.z - b.z⟩

def smul (a : V3 K) (s : K) : V3 K := ⟨a.x * s, a.y * s, a.z * s⟩

/-- Mirrors `Vec3::squaredLength`. -/
def sqLen (a : V3 K) : K := a.x * a.x + a.y * a.y + a.z * a.z

def zero : V3 K := ⟨0, 0, 0⟩

end V3

/-- Modelled from the spec: Lumix `Quat` (only declared in the repository
sources); standard quaternion `(x, y, z, w)` with Hamilton product, components
idealized as exact rationals. -/
structure Quat where
  x : ℚ
  y : ℚ
  z : ℚ
  w : ℚ
deriving DecidableEq, Repr

namespace Quat

/-- Hamilton product `a * b` (apply `b` first, then `a`). -/
def mul (a b : Quat) : Quat :=
  ⟨a.w * b.x + a.x * b.w + a.y * b.z - a.z * b.y,
   a.w * b.y - a.x * b.z + a.y * b.w + a.z * b.x,
   a.w * b.z + a.x * b.y - a.y * b.x + a.z * b.w,
   a.w * b.w - a.x * b.x - a.y * b.y - a.z * b.z⟩

def identity : Quat := ⟨0, 0, 0, 1⟩

/-- Modelled from the spec: `Quat::rotate` — rotation of a vector by a unit
quaternion, `v + 2w(q×v) + 2(q×(q×v))` with `q = (x,y,z)`. -/
def rotate (q : Quat) (v : V3 ℚ) : V3 ℚ :=
  let cx : ℚ := q.y * v.z - q.z * v.y
  let cy : ℚ := q.z * v.x - q.x * v.z
  let cz : ℚ := q.x * v.y - q.y * v.x
  let dx : ℚ := q.y * cz - q.z * cy
  let dy : ℚ := q.z * cx - q.x * cz
  let dz : ℚ := q.x * cy - q.y * cx
  ⟨v.x + 2 * q.w * cx + 2 * dx,
   v.y + 2 * q.w * cy + 2 * dy,
   v.z + 2 * q.w * cz + 2 * dz⟩

end Quat

/-- Entity world transform (position and rotation part of Lumix `Transform`;
the scale component is untouched by the root-motion code). -/
structure WTransform where
  pos : V3 ℚ
  rot : Quat
deriving DecidableEq, Repr

/-- Root-motion delta produced by `Controller::update`
(a `LocalRigidTransform`). -/
structure RootMotion where
  pos : V3 ℚ
  rot : Quat
deriving DecidableEq, Repr

/-- Embeds `AnimationSceneImpl::updateAnimator`, root-motion branch
(animation_scene.cpp lines 649-654):
```
Transform tr = m_universe.getTransform(entity);
tr.rot = tr.rot * root_motion.rot;
tr.pos = tr.pos + tr.rot.rotate(root_motion.pos);
m_universe.setTransform(entity, tr);
```
Note `tr.rot` is updated before it is used to rotate `root_motion.pos`. -/
def applyRootMotion (tr : WTransform) (rm : RootMotion) : WTransform :=
  let rot' := tr.rot.mul rm.rot
  let pos' := (tr.pos.add (rot'.rotate rm.pos))
  ⟨pos', rot'⟩

/-- The claim's wording for the same step: the delta position is rotated by
the *old, pre-composition* rotation. -/
def applyRootMotionSpec (tr : WTransform) (rm : RootMotion) : WTransform :=
  let rot' := tr.rot.mul rm.rot
  let pos' := (tr.pos.add (tr.rot.rotate rm.pos))
  ⟨pos', rot'⟩

end LumixAnim

namespace LumixAnim

/-- Counterexample input for the root-motion claim: identity starting
transform, delta rotation = 180° about z (quaternion `(0,0,1,0)`), delta
position `(1,0,0)`. -/
def rmCexTr : WTransform := ⟨V3.zero, Quat.identity⟩

def rmCexDelta : RootMotion := ⟨⟨1, 0, 0⟩, ⟨0, 0, 1, 0⟩⟩

/-- Readiness facts of the bound controller asset relevant to
`updateAnimator`: `isReady()` and the `USE_ROOT_MOTION` flag. -/
structure AnimCtrlRes where
  ready : Bool
  useRootMotion : Bool
deriving DecidableEq, Repr

/-- External per-entity conditions checked by `updateAnimator` (same checks
as `updateAnimable`). -/
structure AnimatorEnv where
  hasModelInstance : Bool
  modelReady : Bool
  poseAvailable : Bool
deriving DecidableEq, Repr

/-- Effect of `AnimationSceneImpl::updateAnimator(Animator&, float)`
(animation_scene.cpp lines 626-668) on the entity's world transform.
Guards mirror the source: missing or not-ready controller, missing
model-instance component, not-ready model, or unavailable pose all leave the
transform untouched.  `rm` is the root-motion delta yielded by the external
`Controller::update`; the transform is modified only when the controller's
`USE_ROOT_MOTION` flag is set, via the lines 649-654 embedded in
`applyRootMotion`. -/
def updateAnimatorTransform (env : AnimatorEnv) (res : Option AnimCtrlRes)
    (rm : RootMotion) (tr : WTransform) : WTransform :=
  match res with
  | none => tr
  | some r =>
    if !r.ready then tr
    else if !env.hasModelInstance then tr
    else if !env.modelReady then tr
    else if !env.poseAvailable then tr
    else if r.useRootMotion then applyRootMotion tr rm
    else tr

def animatorEnvAll : AnimatorEnv := ⟨true, true, true⟩

end LumixAnim

namespace LumixAnim

/-- Modelled from the spec: Lumix `Time` (ticks; type not among the provided
sources) as exact nonnegative rational seconds; `operator %` wraps modulo the
clip length. -/
def timeMod (t L : ℚ) : ℚ := t - L * ⌊t / L⌋

/-- An `Animable` record: entity, bound clip (if any) with readiness and
length, elapsed time (animation_scene.cpp `struct Animable`, `Animable` in
animation_scene.h). -/
structure AnimClip where
  ready : Bool
  length : ℚ
deriving DecidableEq, Repr

structure Animable where
  animation : Option AnimClip
  time : ℚ
deriving DecidableEq, Repr

/-- External per-entity conditions checked by `updateAnimable`: the entity has
a model-instance component, the model is ready, and the pose lock is
acquirable. -/
structure AnimableEnv where
  hasModelInstance : Bool
  modelReady : Bool
  poseAvailable : Bool
deriving DecidableEq, Repr

/-- Embeds `AnimationSceneImpl::updateAnimable(Animable&, float)`
(animation_scene.cpp lines 507-529): no-op when the clip is missing or not
ready, the model-instance component is missing, the model is not ready, or
the pose cannot be locked; otherwise advances `time` by `time_delta` and
wraps it modulo the clip length.  The pose sampling side effects do not touch
`time` and are not modelled here. -/
def updateAnimable (env : AnimableEnv) (a : Animable) (time_delta : ℚ) :
    Animable :=
  match a.animation with
  | none => a
  | some clip =>
    if !clip.ready then a
    else if !env.hasModelInstance then a
    else if !env.modelReady then a
    else if !env.poseAvailable then a
    else { a with time := timeMod (a.time + time_delta) clip.length }

end LumixAnim

namespace LumixAnim

/-- Declared type of an `Anim::InputDecl` slot (`FLOAT`, `U32`, `BOOL`,
`EMPTY`). -/
inductive InType
  | flt
  | u32
  | booln
  | empty
deriving DecidableEq, Repr

/-- One declared input slot: its type and its byte offset into the runtime
context's input memory. -/
structure InputSlot where
  type : InType
  offset : ℕ
deriving DecidableEq, Repr

/-- Mirrors `Anim::InputDecl`: the fixed-capacity `inputs` array (its Lean length
models `lengthOf(decl.inputs)`) and the used-slot count `inputs_count`. -/
structure InputDecl where
  inputs : List InputSlot
  inputsCount : ℕ
deriving DecidableEq, Repr

/-- A typed value stored in the runtime context's input memory. -/
inductive InVal
  | f (v : ℚ)
  | i (v : ℕ)
  | b (v : Bool)
deriving DecidableEq, Repr

/-- The input-relevant part of one `Animator`: the bound controller's input
declaration and the runtime context's input memory (`none` = no live
context), modelled as a write log keyed by byte offset (latest write first). -/
structure AnimatorInputs where
  decl : InputDecl
  ctx : Option (List (ℕ × InVal))
deriving DecidableEq, Repr

/-- Embeds `AnimationSceneImpl::setAnimatorFloatInput` (animation_scene.cpp lines
183-199), after the entity lookup succeeded: rejects an index `≥
inputs_count`, is a no-op without a live context, stores the value when the
slot's declared type is `FLOAT`, and otherwise only logs a warning (the
returned `Bool`). -/
def setAnimatorFloatInput (a : AnimatorInputs) (input_idx : ℕ) (value : ℚ) :
    AnimatorInputs × Bool :=
  if input_idx ≥ a.decl.inputsCount then (a, false)
  else
    match a.ctx with
    | none => (a, false)
    | some mem =>
      match a.decl.inputs.get? input_idx with
      | none => (a, false)
      | some slot =>
        if slot.type = InType.flt then
          ({ a with ctx := some ((slot.offset, InVal.f value) :: mem) }, false)
        else (a, true)

/-- Result of a call whose assertions are enabled: a failed `ASSERT` is
fatal; reading `decl.inputs` past its capacity or writing through a null
context is undefined behavior. -/
inductive SetInputResult
  | fatalAssert
  | undefinedBehavior
  | ok (a : AnimatorInputs)
deriving DecidableEq, Repr

/-- Embeds `AnimationSceneImpl::setAnimatorInput(EntityRef, u32, float)`
(animation_scene.cpp lines 546-553), after the entity lookup, with
assertion-enabled semantics.  The source asserts
`input_idx >= lengthOf(decl.inputs)` and
`decl.inputs[input_idx].type != Anim::InputDecl::FLOAT` (note the inverted
comparisons), then writes unconditionally. -/
def setAnimatorInputFloat (a : AnimatorInputs) (input_idx : ℕ) (value : ℚ) :
    SetInputResult :=
  if ¬ (input_idx ≥ a.decl.inputs.length) then .fatalAssert
  else
    match a.decl.inputs.get? input_idx with
    | none => .undefinedBehavior
    | some slot =>
      if ¬ (slot.type ≠ InType.flt) then .fatalAssert
      else
        match a.ctx with
        | none => .undefinedBehavior
        | some mem =>
          .ok { a with ctx := some ((slot.offset, InVal.f value) :: mem) }

/-- A concrete animator for the C2 failing input: one declared `FLOAT` slot
at offset 0, a live context with empty write log. -/
def c2Animator : AnimatorInputs := ⟨⟨[⟨InType.flt, 0⟩], 1⟩, some []⟩

/-- Truncation toward zero, the semantics of C++ `int(float)`. -/
def truncQ (q : ℚ) : ℤ := if q < 0 then -⌊-q⌋ else ⌊q⌋

/-- Modelled from the spec: one keyframe of a `PropertyAnimation::Curve`
("ordered list of keyframes per curve (frame index + value)";
property_animation.h is not among the provided sources). -/
structure Keyframe where
  frame : ℤ
  value : ℚ
deriving DecidableEq, Repr

/-- Modelled from the spec: a `PropertyAnimation::Curve` — its keyframes;
the target component/property handle is irrelevant to the sampled value and
is identified here by the curve's position in the list. -/
structure PACurve where
  keys : List Keyframe
deriving DecidableEq, Repr

/-- A `PropertyAnimation` asset: readiness, frames-per-second rate and
curves. -/
structure PropertyAnimation where
  ready : Bool
  fps : ℚ
  curves : List PACurve
deriving DecidableEq, Repr

/-- Mirrors the `AnimationSceneImpl::PropertyAnimator` component record: bound asset (if
any), the `DISABLED` flag, elapsed time in seconds (the `LOOPED` flag is
never read by the runtime code). -/
structure PropertyAnimatorC where
  animation : Option PropertyAnimation
  disabled : Bool
  time : ℚ
deriving DecidableEq, Repr

/-- Inner loop of `applyPropertyAnimator` (animation_scene.cpp lines
784-798): linear search for the first keyframe (from the second onward)
whose frame is `≥` the sample frame, then linear interpolation between it
and its predecessor; no write if the search fails. -/
def scanKeys (frame : ℤ) : Keyframe → List Keyframe → Option ℚ
  | _, [] => none
  | prev, k :: rest =>
    if frame ≤ k.frame then
      let t : ℚ := ((frame - prev.frame : ℤ) : ℚ) / ((k.frame - prev.frame : ℤ) : ℚ)
      some (k.value * t + prev.value * (1 - t))
    else scanKeys frame k rest

/-- Per-curve sampling: curves with fewer than 2 keyframes are skipped
(`if (curve.frames.size() < 2) continue;`). -/
def sampleCurve (frame : ℤ) : List Keyframe → Option ℚ
  | [] => none
  | [_] => none
  | k0 :: rest => scanKeys frame k0 rest

/-- Embeds `AnimationSceneImpl::applyPropertyAnimator` (animation_scene.cpp lines
776-800), with the unchecked accesses made explicit: `none` models undefined
behavior — indexing `curves[0]` of an empty curve list, `frames.back()` of
an empty first curve, or `% 0` when the first curve's last keyframe frame is
zero.  Otherwise returns the per-curve written values (`none` entries are
curves that produce no write).  `frame = int(time * fps + 0.5f)` truncates
toward zero and C++ `%` is truncated remainder (`Int.tmod`). -/
def applyPropertyAnimator (anim : PropertyAnimation) (time : ℚ) :
    Option (List (Option ℚ)) :=
  match anim.curves with
  | [] => none
  | c0 :: _ =>
    match c0.keys.getLast? with
    | none => none
    | some klast =>
      if klast.frame = 0 then none
      else
        let frame := Int.tmod (truncQ (time * anim.fps + 1/2)) klast.frame
        some (anim.curves.map (fun c => sampleCurve frame c.keys))

/-- Outcome of the immediate apply inside `enablePropertyAnimator`. -/
inductive ApplyOutcome
  | notInvoked
  | crashed
  | wrote (ws : List (Option ℚ))
deriving DecidableEq, Repr

/-- Embeds `AnimationSceneImpl::enablePropertyAnimator` (animation_scene.cpp lines
463-472): sets the `DISABLED` flag to `!enabled`, resets `time` to 0, and —
only when disabling — immediately calls `applyPropertyAnimator` with no
guard on the asset (`crashed` models the resulting undefined behavior when
the unchecked accesses fail). -/
def enablePropertyAnimator (pa : PropertyAnimatorC) (enabled : Bool) :
    PropertyAnimatorC × ApplyOutcome :=
  let pa' : PropertyAnimatorC :=
    { pa with disabled := !enabled, time := 0 }
  if !enabled then
    match pa'.animation with
    | none => (pa', .crashed)
    | some anim =>
      match applyPropertyAnimator anim pa'.time with
      | none => (pa', .crashed)
      | some ws => (pa', .wrote ws)
  else (pa', .notInvoked)

/-- One animator's step inside `AnimationSceneImpl::updatePropertyAnimators`
(animation_scene.cpp lines 806-819): skip when the asset is missing or not
ready, when the curve list or the first curve is empty, or when disabled;
otherwise advance `time` by `dt` and apply.  Returns the new record and the
apply outcome. -/
def updatePropertyAnimatorStep (pa : PropertyAnimatorC) (dt : ℚ) :
    PropertyAnimatorC × ApplyOutcome :=
  match pa.animation with
  | none => (pa, .notInvoked)
  | some anim =>
    if !anim.ready then (pa, .notInvoked)
    else if anim.curves.isEmpty then (pa, .notInvoked)
    else if (anim.curves.headD ⟨[]⟩).keys.isEmpty then (pa, .notInvoked)
    else if pa.disabled then (pa, .notInvoked)
    else
      let pa' := { pa with time := pa.time + dt }
      match applyPropertyAnimator anim pa'.time with
      | none => (pa', .crashed)
      | some ws => (pa', .wrote ws)

/-- One of the 4 `Animator::IK` slots: blend weight and target position. -/
structure IKSlot where
  weight : ℚ
  target : V3 ℚ
deriving DecidableEq, Repr

/-- The IK slot scan of `updateAnimator` (animation_scene.cpp lines
659-663): slots are visited in order; the loop `break`s at the first slot
whose weight is 0, and otherwise applies the solver (`updateIK`, abstracted
as `solve idx slot pose`) to the pose.  `idx` is the slot's position
(`&ik - animator.inverse_kinematics`). -/
def processIKSlots {P : Type} (solve : ℕ → IKSlot → P → P) :
    List IKSlot → ℕ → P → P
  | [], _, pose => pose
  | s :: rest, idx, pose =>
    if s.weight = 0 then pose
    else processIKSlots solve rest (idx + 1) (solve idx s pose)

/-- Reference fold with no early exit: applies the solver to every slot of
the list in order. -/
def foldSolveAll {P : Type} (solve : ℕ → IKSlot → P → P) :
    List IKSlot → ℕ → P → P
  | [], _, pose => pose
  | s :: rest, idx, pose => foldSolveAll solve rest (idx + 1) (solve idx s pose)

/-- One record of the dense `m_animators` array.  Only the entity matters
for the index invariant; the resource/context fields are released before
removal and do not affect indexing. -/
structure AnimatorRec where
  entity : ℕ
deriving DecidableEq, Repr

/-- Mirrors `HashMap<EntityRef,·>` lookup, modelled on an association list with
unique keys. -/
def alookup {β : Type} : List (ℕ × β) → ℕ → Option β
  | [], _ => none
  | (k, v) :: rest, e => if k = e then some v else alookup rest e

/-- Mirrors `HashMap` insert-or-assign (`insert` on a fresh key, `map[k] = v` on an
existing one). -/
def aset {β : Type} : List (ℕ × β) → ℕ → β → List (ℕ × β)
  | [], k, v => [(k, v)]
  | (k', v') :: rest, k, v =>
    if k' = k then (k, v) :: rest else (k', v') :: aset rest k v

/-- Mirrors `HashMap::erase`. -/
def aerase {β : Type} : List (ℕ × β) → ℕ → List (ℕ × β)
  | [], _ => []
  | (k', v') :: rest, k =>
    if k' = k then rest else (k', v') :: aerase rest k

def akeys {β : Type} (m : List (ℕ × β)) : List ℕ := m.map Prod.fst

/-- The Animator collection: the dense `m_animators` array plus the
`m_animator_map` entity→index lookup. -/
structure AnimatorStore where
  animators : List AnimatorRec
  map : List (ℕ × ℕ)
deriving DecidableEq, Repr

/-- Embeds `AnimationSceneImpl::createAnimator` (animation_scene.cpp lines
940-947): insert `entity ↦ m_animators.size()` into the map, then emplace a
record with that entity at the end of the array. -/
def createAnimator (s : AnimatorStore) (e : ℕ) : AnimatorStore :=
  ⟨s.animators ++ [⟨e⟩], aset s.map e s.animators.length⟩

/-- Mirrors `Array::swapAndPop(idx)`: overwrite slot `idx` with the last record and
pop the last slot. -/
def swapAndPop (l : List AnimatorRec) (idx : ℕ) : List AnimatorRec :=
  match l.getLast? with
  | none => l
  | some last => (l.set idx last).dropLast

/-- Embeds `AnimationSceneImpl::destroyAnimator` (animation_scene.cpp lines
340-351): look up the freed index, repoint the map entry of the last
record's entity at it, erase the destroyed entity's entry, and
swap-and-pop the array (`none` models the undefined map lookup of an entity
with no animator, or `back()` on an empty array). -/
def destroyAnimator (s : AnimatorStore) (e : ℕ) : Option AnimatorStore :=
  match alookup s.map e with
  | none => none
  | some idx =>
    match s.animators.getLast? with
    | none => none
    | some last =>
      some ⟨swapAndPop s.animators idx, aerase (aset s.map last.entity idx) e⟩

/-- The collection invariant: every map entry points at a slot holding an
animator with that entity, every stored animator has exactly its own map
entry, and map keys are unique. -/
def wfStore (s : AnimatorStore) : Prop :=
  (∀ i a, s.animators[i]? = some a → alookup s.map a.entity = some i) ∧
  (∀ e i, alookup s.map e = some i →
    ∃ a, s.animators[i]? = some a ∧ a.entity = e) ∧
  (akeys s.map).Nodup

/-- The constant `crc32("set_input")`, the recognized event-type tag compared against in
`processEventStream` (animation_scene.cpp line 863). -/
def setInputTypeTag : ℕ := 1289342641

/-- Little-endian serialization of a `u32` into 4 bytes, as
`OutputMemoryStream::write` stores it. -/
def writeU32 (n : ℕ) : List ℕ :=
  [n % 256, n / 256 % 256, n / 65536 % 256, n / 16777216 % 256]

/-- Little-endian deserialization of 4 bytes into a `u32`
(`InputMemoryStream::read`). -/
def readU32v (b0 b1 b2 b3 : ℕ) : ℕ :=
  b0 + 256 * b1 + 65536 * b2 + 16777216 * b3

/-- The drain-relevant state of one `Animator`: whether `resource` is
non-null and ready, the declared inputs, and the runtime context's input
memory as a write log keyed by byte offset holding the raw 32-bit payload
(`none` context = no live runtime context). -/
structure DrainAnimator where
  hasResource : Bool
  ready : Bool
  decl : InputDecl
  ctx : Option (List (ℕ × ℕ))
deriving DecidableEq, Repr

/-- The `set_input` dispatch of `processEventStream` (animation_scene.cpp
lines 872-889): look the entity up (`none` = undefined lookup of an entity
with no animator or a null `resource`), and if the controller is ready write
the deserialized value to the declared slot's offset in the runtime context
(`none` also for an out-of-range `input_idx`, an `EMPTY` slot — the
`ASSERT(false)` default — or a null context). -/
def applySetInputEvent (st : List (ℕ × DrainAnimator))
    (entity inputIdx value : ℕ) : Option (List (ℕ × DrainAnimator)) :=
  match alookup st entity with
  | none => none
  | some a =>
    if !a.hasResource then none
    else if a.ready then
      match a.decl.inputs.get? inputIdx with
      | none => none
      | some slot =>
        if slot.type = InType.empty then none
        else
          match a.ctx with
          | none => none
          | some mem =>
            some (aset st entity
              { a with ctx := some ((slot.offset, value) :: mem) })
    else some st

/-- Embeds `AnimationSceneImpl::processEventStream` (animation_scene.cpp lines
860-895): read records sequentially from offset 0 — a 32-bit type tag, the
entity, an 8-bit payload size; a `set_input` record deserializes the event
(input slot index and raw value, 8 bytes) and applies it; any other tag is
skipped by its declared payload size.  `fuel` bounds the iteration count
(each iteration consumes at least 9 bytes, so `bytes.length + 1` always
suffices); `none` models reads past the end of the buffer. -/
def drainFuel : ℕ → List (ℕ × DrainAnimator) → List ℕ →
    Option (List (ℕ × DrainAnimator))
  | _, st, [] => some st
  | 0, _, _ => none
  | fuel + 1, st, t0 :: t1 :: t2 :: t3 :: e0 :: e1 :: e2 :: e3 :: sz :: rest =>
    if readU32v t0 t1 t2 t3 = setInputTypeTag then
      match rest with
      | i0 :: i1 :: i2 :: i3 :: v0 :: v1 :: v2 :: v3 :: rest2 =>
        match applySetInputEvent st (readU32v e0 e1 e2 e3)
            (readU32v i0 i1 i2 i3) (readU32v v0 v1 v2 v3) with
        | none => none
        | some st' => drainFuel fuel st' rest2
      | _ => none
    else drainFuel fuel st (rest.drop sz)
  | _ + 1, _, _ => none

def processEventStream (st : List (ℕ × DrainAnimator)) (bytes : List ℕ) :
    Option (List (ℕ × DrainAnimator)) :=
  drainFuel (bytes.length + 1) st bytes

/-- A record appended to the event stream during the parallel phase:
either a `set_input` event or a record with any other type tag and an
opaque payload. -/
inductive EvRecord
  | setInput (entity inputIdx value : ℕ)
  | other (tag entity : ℕ) (payload : List ℕ)
deriving DecidableEq, Repr

/-- The append-side encoding: 32-bit tag, 32-bit entity, 8-bit payload
size, then the payload (a `SetInputEvent` is modelled from the spec as
input-slot index plus one 32-bit value, 8 bytes). -/
def encodeRecord : EvRecord → List ℕ
  | .setInput e idx v =>
    writeU32 setInputTypeTag ++ writeU32 e ++ [8] ++ writeU32 idx ++ writeU32 v
  | .other tag e payload =>
    writeU32 tag ++ writeU32 e ++ [payload.length] ++ payload

def encodeStream : List EvRecord → List ℕ
  | [] => []
  | r :: rs => encodeRecord r ++ encodeStream rs

/-- The per-record effect the drain is supposed to have: `set_input`
records apply their write, all others do nothing. -/
def recordEffect (st : List (ℕ × DrainAnimator)) :
    EvRecord → Option (List (ℕ × DrainAnimator))
  | .setInput e idx v => applySetInputEvent st e idx v
  | .other _ _ _ => some st

def foldEffects (st : List (ℕ × DrainAnimator)) :
    List EvRecord → Option (List (ℕ × DrainAnimator))
  | [] => some st
  | r :: rs =>
    match recordEffect st r with
    | none => none
    | some st' => foldEffects st' rs

/-- Well-formedness of an appended record: 32-bit fields fit in 32 bits, an
unrecognized tag is not the `set_input` tag, and a payload's size fits its
8-bit size field. -/
def wfRecord : EvRecord → Prop
  | .setInput e idx v => e < 4294967296 ∧ idx < 4294967296 ∧ v < 4294967296
  | .other tag _ payload =>
    tag < 4294967296 ∧ tag ≠ setInputTypeTag ∧ payload.length < 256

/-- The addressed animator exists with a non-null resource, and — when
ready — declares the addressed slot (non-`EMPTY`) and has a live context. -/
def entityOK (st : List (ℕ × DrainAnimator)) (e idx : ℕ) : Prop :=
  ∃ a, alookup st e = some a ∧ a.hasResource = true ∧
    (a.ready = true →
      (∃ slot, a.decl.inputs.get? idx = some slot ∧ slot.type ≠ InType.empty) ∧
        a.ctx.isSome = true)

def statesOK (st : List (ℕ × DrainAnimator)) (records : List EvRecord) : Prop :=
  ∀ e idx v, EvRecord.setInput e idx v ∈ records → entityOK st e idx

/-- Concrete drain state for the C8 witness: entity 5 has a ready animator
with one declared `U32` slot at offset 4 and a live context. -/
def c8State : List (ℕ × DrainAnimator) :=
  [(5, ⟨true, true, ⟨[⟨InType.u32, 4⟩], 1⟩, some []⟩)]

/-- Concrete record sequence for the C8 witness: an unrecognized record
(tag 7, 3-byte payload) followed by a `set_input` record. -/
def c8Records : List EvRecord :=
  [.other 7 1 [9, 9, 9], .setInput 5 0 42]

/-- Numeric primitives of the float code, supplied per scalar field:
`sqrtf` (used by `Vec3::length`), the reciprocal square root (used by
`Vec3::normalized`, `v / |v|`), and the boolean `<` comparison.  Theorems
state explicitly that these behave as exact square roots on the values the
algorithm encounters. -/
structure NumOps (K : Type) where
  sqrtf : K → K
  invSqrt : K → K
  ltb : K → K → Bool

variable {K : Type}

/-- Mirrors `Vec3::normalized()`: `v * (1 / |v|)`. -/
def normalizedV [CommRing K] (ops : NumOps K) (v : V3 K) : V3 K :=
  v.smul (ops.invSqrt v.sqLen)

/-- Mirrors `Vec3::length()`. -/
def lengthV [CommRing K] (ops : NumOps K) (v : V3 K) : K :=
  ops.sqrtf v.sqLen

/-- The segment lengths of `updateIK` (animation_scene.cpp lines 707-716):
`len[i-1] = (transforms[i].pos - transforms[i-1].pos).length()`, taking the
object-space joint positions as given (the bone-space→object-space
conversion of lines 695-716 does not alter them). -/
def chainLens [CommRing K] (ops : NumOps K) : List (V3 K) → List K
  | p0 :: p1 :: rest => lengthV ops (p1.sub p0) :: chainLens ops (p1 :: rest)
  | _ => []

def getV [CommRing K] (l : List (V3 K)) (i : ℕ) : V3 K := l.getD i V3.zero

def getK [CommRing K] (l : List K) (i : ℕ) : K := l.getD i 0

/-- Target clamping of `updateIK` (animation_scene.cpp lines 718-723): if
the squared distance from the chain's first joint to the target exceeds the
squared summed segment length, project the target onto the max-reach sphere
along the root→target direction. -/
def clampTarget [CommRing K] (ops : NumOps K) (root target : V3 K)
    (lenSum : K) : V3 K :=
  let to_target := target.sub root
  if ops.ltb (lenSum * lenSum) to_target.sqLen then
    root.add ((normalizedV ops to_target).smul lenSum)
  else target

/-- One backward-pass assignment (line 729-730):
`transforms[i-1].pos = transforms[i].pos + (transforms[i-1].pos -
transforms[i].pos).normalized() * len[i-1]`. -/
def backStep [CommRing K] (ops : NumOps K) (lens : List K)
    (tr : List (V3 K)) (i : ℕ) : List (V3 K) :=
  let dir := normalizedV ops ((getV tr (i - 1)).sub (getV tr i))
  tr.set (i - 1) ((getV tr i).add (dir.smul (getK lens (i - 1))))

/-- The backward pass `for (i = bones_count - 1; i > 1; --i)` (lines
728-731), invoked with `i = bones_count - 1`. -/
def backLoop [CommRing K] (ops : NumOps K) (lens : List K) :
    List (V3 K) → ℕ → List (V3 K)
  | tr, 0 => tr
  | tr, 1 => tr
  | tr, i + 2 => backLoop ops lens (backStep ops lens tr (i + 2)) (i + 1)

/-- One forward-pass assignment (lines 734-735). -/
def fwdStep [CommRing K] (ops : NumOps K) (lens : List K)
    (tr : List (V3 K)) (i : ℕ) : List (V3 K) :=
  let dir := normalizedV ops ((getV tr i).sub (getV tr (i - 1)))
  tr.set i ((getV tr (i - 1)).add (dir.smul (getK lens (i - 1))))

/-- The forward pass `for (i = 1; i < bones_count; ++i)` (lines 733-736):
`rem` counts the remaining iterations, `bones_count - i`. -/
def fwdLoop [CommRing K] (ops : NumOps K) (lens : List K) :
    List (V3 K) → ℕ → ℕ → List (V3 K)
  | tr, _, 0 => tr
  | tr, i, rem + 1 => fwdLoop ops lens (fwdStep ops lens tr i) (i + 1) rem

/-- One solver iteration (lines 725-737): pin the last joint to the target,
run the backward pass, then the forward pass. -/
def ikIteration [CommRing K] (ops : NumOps K) (lens : List K)
    (target : V3 K) (n : ℕ) (tr : List (V3 K)) : List (V3 K) :=
  fwdLoop ops lens (backLoop ops lens (tr.set (n - 1) target) (n - 1)) 1 (n - 1)

/-- Mirrors `for (iteration = 0; iteration < max_iterations; ++iteration)`. -/
def ikIterate [CommRing K] (ops : NumOps K) (lens : List K) (target : V3 K)
    (n : ℕ) : ℕ → List (V3 K) → List (V3 K)
  | 0, tr => tr
  | k + 1, tr => ikIterate ops lens target n k (ikIteration ops lens target n tr)

/-- The positional core of `updateIK` (animation_scene.cpp lines 707-737):
segment lengths and their sum, target clamping, and the fixed number of
alternating backward/forward relaxation iterations.  The subsequent
rotation derivation and bone-space conversion (lines 739-772) read but do
not move the solved joint positions. -/
def solveChainPositions [CommRing K] (ops : NumOps K) (tr : List (V3 K))
    (target : V3 K) (maxIterations : ℕ) : List (V3 K) :=
  let lens := chainLens ops tr
  let lenSum := lens.sum
  let tgt := clampTarget ops (getV tr 0) target lenSum
  ikIterate ops lens tgt tr.length maxIterations tr

/-- Scalars of the form `a + b·√1745`, an exact commutative ring in which
every square root the C7 counterexample run encounters is representable
(1745 = 43625/25 is the one non-square squared length produced by the
run). -/
@[ext]
structure Qrt where
  a : ℚ
  b : ℚ
deriving DecidableEq, Repr

namespace Qrt

instance : Zero Qrt := ⟨⟨0, 0⟩⟩

instance : One Qrt := ⟨⟨1, 0⟩⟩

instance : Add Qrt := ⟨fun x y => ⟨x.a + y.a, x.b + y.b⟩⟩

instance : Neg Qrt := ⟨fun x => ⟨-x.a, -x.b⟩⟩

instance : Mul Qrt := ⟨fun x y =>
  ⟨x.a * y.a + 1745 * (x.b * y.b), x.a * y.b + x.b * y.a⟩⟩

instance instCommRing : CommRing Qrt where
  add_assoc x y z := by
    apply Qrt.ext
    · show x.a + y.a + z.a = x.a + (y.a + z.a)
      ring
    · show x.b + y.b + z.b = x.b + (y.b + z.b)
      ring
  zero_add x := by
    apply Qrt.ext
    · show 0 + x.a = x.a
      ring
    · show 0 + x.b = x.b
      ring
  add_zero x := by
    apply Qrt.ext
    · show x.a + 0 = x.a
      ring
    · show x.b + 0 = x.b
      ring
  add_comm x y := by
    apply Qrt.ext
    · show x.a + y.a = y.a + x.a
      ring
    · show x.b + y.b = y.b + x.b
      ring
  left_distrib x y z := by
    apply Qrt.ext
    · show x.a * (y.a + z.a) + 1745 * (x.b * (y.b + z.b)) =
        x.a * y.a + 1745 * (x.b * y.b) + (x.a * z.a + 1745 * (x.b * z.b))
      ring
    · show x.a * (y.b + z.b) + x.b * (y.a + z.a) =
        x.a * y.b + x.b * y.a + (x.a * z.b + x.b * z.a)
      ring
  right_distrib x y z := by
    apply Qrt.ext
    · show (x.a + y.a) * z.a + 1745 * ((x.b + y.b) * z.b) =
        x.a * z.a + 1745 * (x.b * z.b) + (y.a * z.a + 1745 * (y.b * z.b))
      ring
    · show (x.a + y.a) * z.b + (x.b + y.b) * z.a =
        x.a * z.b + x.b * z.a + (y.a * z.b + y.b * z.a)
      ring
  zero_mul x := by
    apply Qrt.ext
    · show 0 * x.a + 1745 * (0 * x.b) = 0
      ring
    · show 0 * x.b + 0 * x.a = 0
      ring
  mul_zero x := by
    apply Qrt.ext
    · show x.a * 0 + 1745 * (x.b * 0) = 0
      ring
    · show x.a * 0 + x.b * 0 = 0
      ring
  mul_assoc x y z := by
    apply Qrt.ext
    · show (x.a * y.a + 1745 * (x.b * y.b)) * z.a +
        1745 * ((x.a * y.b + x.b * y.a) * z.b) =
        x.a * (y.a * z.a + 1745 * (y.b * z.b)) +
        1745 * (x.b * (y.a * z.b + y.b * z.a))
      ring
    · show (x.a * y.a + 1745 * (x.b * y.b)) * z.b +
        (x.a * y.b + x.b * y.a) * z.a =
        x.a * (y.a * z.b + y.b * z.a) +
        x.b * (y.a * z.a + 1745 * (y.b * z.b))
      ring
  one_mul x := by
    apply Qrt.ext
    · show 1 * x.a + 1745 * (0 * x.b) = x.a
      ring
    · show 1 * x.b + 0 * x.a = x.b
      ring
  mul_one x := by
    apply Qrt.ext
    · show x.a * 1 + 1745 * (x.b * 0) = x.a
      ring
    · show x.a * 0 + x.b * 1 = x.b
      ring
  mul_comm x y := by
    apply Qrt.ext
    · show x.a * y.a + 1745 * (x.b * y.b) = y.a * x.a + 1745 * (y.b * x.b)
      ring
    · show x.a * y.b + x.b * y.a = y.a * x.b + y.b * x.a
      ring
  neg_add_cancel x := by
    apply Qrt.ext
    · show -x.a + x.a = 0
      ring
    · show -x.b + x.b = 0
      ring
  nsmul := nsmulRec
  zsmul := zsmulRec

/-- Embedding of the rationals. -/
def ofQ (q : ℚ) : Qrt := ⟨q, 0⟩

end Qrt

/-- The numeric primitives for the counterexample run, given as finite
tables over the squared lengths the run encounters; `ops1745_exact` proves
each entry is the exact square root (or reciprocal square root) of its
argument, so these agree with real `sqrtf` arithmetic on this run. -/
def ops1745 : NumOps Qrt where
  sqrtf x :=
    if x = Qrt.ofQ 4225 then Qrt.ofQ 65
    else if x = Qrt.ofQ 1225 then Qrt.ofQ 35
    else 0
  invSqrt x :=
    if x = Qrt.ofQ 40000 then Qrt.ofQ (1/200)
    else if x = Qrt.ofQ 3025 then Qrt.ofQ (1/55)
    else if x = Qrt.ofQ 5625 then Qrt.ofQ (1/75)
    else if x = Qrt.ofQ 1745 then ⟨0, 1/1745⟩
    else 0
  ltb x y := if x.b = y.b then decide (x.a < y.a) else decide (x.b < y.b)

def v3q (x y : ℚ) : V3 Qrt := ⟨Qrt.ofQ x, Qrt.ofQ y, Qrt.ofQ 0⟩

/-- The counterexample chain: joints `(0,0,0)`, `(33,56,0)`, `(68,56,0)` —
segment lengths 65 and 35 (total reach 100) — with unreachable target
`(0,200,0)` and `max_iterations = 1`. -/
def ikCexChain : List (V3 Qrt) := [v3q 0 0, v3q 33 56, v3q 68 56]

def ikCexTarget : V3 Qrt := v3q 0 200

/-- The spec scenario's property-animation asset: one curve with keys
`[(frame 0, value 0.0), (frame 10, value 1.0)]` at 10 fps. -/
def paAsset01 : PropertyAnimation := ⟨true, 10, [⟨[⟨0, 0⟩, ⟨10, 1⟩]⟩]⟩

/-- Exact numeric primitives over ℚ for the C7 witness run (entries are the
true square roots of the squared lengths that run encounters; `ltb` is the
exact rational comparison). -/
def opsQw : NumOps ℚ where
  sqrtf x := if x = 25 then 5 else 0
  invSqrt x := if x = 400 then 1/20 else if x = 25 then 1/5 else 0
  ltb x y := decide (x < y)

end LumixAnim

namespace LumixAnim

theorem alookup_aset_self {β : Type} (m : List (ℕ × β)) (k : ℕ) (v : β) :
    alookup (aset m k v) k = some v := by
  induction m with
  | nil => simp [aset, alookup]
  | cons p rest ih =>
    obtain ⟨k', v'⟩ := p
    by_cases h : k' = k
    · simp [aset, h, alookup]
    · simp [aset, h, alookup, ih]

theorem alookup_aset_ne {β : Type} (m : List (ℕ × β)) (k : ℕ) (v : β) (k' : ℕ) (h : k' ≠ k) :
    alookup (aset m k v) k' = alookup m k' := by
  have h' : ¬ k = k' := Ne.symm h
  induction m with
  | nil => simp [aset, alookup, h']
  | cons p rest ih =>
    obtain ⟨k'', v''⟩ := p
    by_cases hk : k'' = k
    · subst hk
      simp [aset, alookup, h']
    · by_cases hk' : k'' = k'
      · simp [aset, hk, alookup, hk', h]
      · simp [aset, hk, alookup, hk', ih]

theorem mem_akeys_aset {β : Type} (m : List (ℕ × β)) (k : ℕ) (v : β) (x : ℕ)
    (hx : x ∈ akeys (aset m k v)) : x ∈ akeys m ∨ x = k := by
  induction m with
  | nil =>
    simp [aset, akeys] at hx
    exact Or.inr hx
  | cons p rest ih =>
    obtain ⟨k', v'⟩ := p
    by_cases hk : k' = k
    · subst hk
      simp [aset, akeys] at hx ⊢
      tauto
    · simp only [aset, hk, if_false, akeys, List.map_cons, List.mem_cons] at hx
      simp only [akeys, List.map_cons, List.mem_cons]
      rcases hx with hx | hx
      · exact Or.inl (Or.inl hx)
      · rcases ih hx with hx' | hx'
        · exact Or.inl (Or.inr hx')
        · exact Or.inr hx'

theorem mem_akeys_aerase {β : Type} (m : List (ℕ × β)) (k x : ℕ)
    (hx : x ∈ akeys (aerase m k)) : x ∈ akeys m := by
  induction m with
  | nil => simpa [aerase] using hx
  | cons p rest ih =>
    obtain ⟨k', v'⟩ := p
    by_cases hk : k' = k
    · subst hk
      simp only [aerase, if_pos rfl] at hx
      simp only [akeys, List.map_cons, List.mem_cons]
      exact Or.inr hx
    · simp only [aerase, hk, if_false, akeys, List.map_cons, List.mem_cons] at hx
      simp only [akeys, List.map_cons, List.mem_cons]
      tauto

theorem nodup_akeys_aset {β : Type} (m : List (ℕ × β)) (k : ℕ) (v : β)
    (h : (akeys m).Nodup) : (akeys (aset m k v)).Nodup := by
  induction m with
  | nil => simp [aset, akeys]
  | cons p rest ih =>
    obtain ⟨k', v'⟩ := p
    simp only [akeys, List.map_cons, List.nodup_cons] at h
    by_cases hk : k' = k
    · subst hk
      have : aset ((k', v') :: rest) k' v = (k', v) :: rest := by
        simp [aset]
      rw [this]
      simp only [akeys, List.map_cons, List.nodup_cons]
      exact h
    · simp only [aset, hk, if_false, akeys, List.map_cons, List.nodup_cons]
      refine ⟨?_, ih h.2⟩
      intro hmem
      rcases mem_akeys_aset rest k v k' hmem with hx | hx
      · exact h.1 hx
      · exact hk hx

theorem alookup_aerase_ne {β : Type} (m : List (ℕ × β)) (k k' : ℕ) (h : k' ≠ k) :
    alookup (aerase m k) k' = alookup m k' := by
  have h' : ¬ k = k' := Ne.symm h
  induction m with
  | nil => simp [aerase]
  | cons p rest ih =>
    obtain ⟨k'', v''⟩ := p
    by_cases hk : k'' = k
    · subst hk
      simp [aerase, alookup, h']
    · by_cases hk' : k'' = k'
      · simp [aerase, hk, alookup, hk', h]
      · simp [aerase, hk, alookup, hk', ih]

theorem alookup_none_of_not_mem_akeys {β : Type} (m : List (ℕ × β)) (k : ℕ)
    (h : k ∉ akeys m) : alookup m k = none := by
  induction m with
  | nil => simp [alookup]
  | cons p rest ih =>
    obtain ⟨k', v'⟩ := p
    simp only [akeys, List.map_cons, List.mem_cons] at h
    push_neg at h
    simp [alookup, Ne.symm h.1, ih h.2]

theorem alookup_aerase_self {β : Type} (m : List (ℕ × β)) (k : ℕ)
    (h : (akeys m).Nodup) : alookup (aerase m k) k = none := by
  induction m with
  | nil => simp [aerase, alookup]
  | cons p rest ih =>
    obtain ⟨k', v'⟩ := p
    simp only [akeys, List.map_cons, List.nodup_cons] at h
    by_cases hk : k' = k
    · subst hk
      simp only [aerase, if_pos rfl]
      exact alookup_none_of_not_mem_akeys rest k' h.1
    · simp [aerase, hk, alookup, hk, ih h.2]

theorem nodup_akeys_aerase {β : Type} (m : List (ℕ × β)) (k : ℕ)
    (h : (akeys m).Nodup) : (akeys (aerase m k)).Nodup := by
  induction m with
  | nil => simpa [aerase] using h
  | cons p rest ih =>
    obtain ⟨k', v'⟩ := p
    simp only [akeys, List.map_cons, List.nodup_cons] at h
    by_cases hk : k' = k
    · subst hk
      simpa only [aerase, if_pos rfl] using h.2
    · simp only [aerase, hk, if_false, akeys, List.map_cons, List.nodup_cons]
      exact ⟨fun hmem => h.1 (mem_akeys_aerase rest k k' hmem), ih h.2⟩

theorem length_swapAndPop (l : List AnimatorRec) (idx : ℕ) (last : AnimatorRec)
    (hlast : l.getLast? = some last) :
    (swapAndPop l idx).length = l.length - 1 := by
  unfold swapAndPop
  rw [hlast]
  simp

theorem getElem?_swapAndPop (l : List AnimatorRec) (idx : ℕ)
    (last : AnimatorRec) (hlast : l.getLast? = some last) (i : ℕ)
    (hi : i < l.length - 1) :
    (swapAndPop l idx)[i]? = if i = idx then some last else l[i]? := by
  unfold swapAndPop
  rw [hlast]
  show ((l.set idx last).dropLast)[i]? = if i = idx then some last else l[i]?
  rw [List.dropLast_eq_take, List.getElem?_take, if_pos (by simpa using hi)]
  by_cases hih : i = idx
  · subst hih
    rw [if_pos rfl]
    exact List.getElem?_set_eq_of_lt last (by omega)
  · rw [if_neg hih]
    exact List.getElem?_set_ne (fun h => hih h.symm)

theorem readU32_writeU32 (n : ℕ) (h : n < 4294967296) :
    readU32v (n % 256) (n / 256 % 256) (n / 65536 % 256)
      (n / 16777216 % 256) = n := by
  unfold readU32v
  omega

theorem applySetInputEvent_some (st : List (ℕ × DrainAnimator))
    (e idx v : ℕ) (h : entityOK st e idx) :
    ∃ st', applySetInputEvent st e idx v = some st' := by
  obtain ⟨a, ha, hres, hready⟩ := h
  unfold applySetInputEvent
  rw [ha]
  by_cases hr : a.ready = true
  · obtain ⟨⟨slot, hslot, hty⟩, hctx⟩ := hready hr
    obtain ⟨mem, hmem⟩ := Option.isSome_iff_exists.mp hctx
    simp only [hres, hr, Bool.not_true, if_false, ite_false, ite_true,
      hslot, hmem, if_neg hty]
    exact ⟨_, rfl⟩
  · simp only [hres, hr, Bool.not_true, if_false, ite_false]
    exact ⟨st, rfl⟩

theorem entityOK_preserved (st st' : List (ℕ × DrainAnimator)) (e idx v : ℕ)
    (happ : applySetInputEvent st e idx v = some st') (x i : ℕ)
    (h : entityOK st x i) : entityOK st' x i := by
  unfold applySetInputEvent at happ
  cases ha : alookup st e with
  | none => rw [ha] at happ; exact absurd happ (by simp)
  | some a =>
    rw [ha] at happ
    by_cases hres : a.hasResource = true
    · by_cases hr : a.ready = true
      · cases hslot : a.decl.inputs.get? idx with
        | none =>
          simp only [hres, hr, Bool.not_true, if_false, ite_false, ite_true,
            hslot] at happ
          simp at happ
        | some slot =>
          by_cases hty : slot.type = InType.empty
          · simp only [hres, hr, Bool.not_true, if_false, ite_false, ite_true,
              hslot, if_pos hty] at happ
            simp at happ
          · cases hctx : a.ctx with
            | none =>
              simp only [hres, hr, Bool.not_true, if_false, ite_false,
                ite_true, hslot, if_neg hty, hctx] at happ
              simp at happ
            | some mem =>
              simp only [hres, hr, Bool.not_true, if_false, ite_false,
                ite_true, hslot, if_neg hty, hctx] at happ
              injection happ with happ'
              subst happ'
              obtain ⟨b, hb, hbres, hbready⟩ := h
              by_cases hxe : x = e
              · subst hxe
                rw [ha] at hb
                injection hb with hb'
                subst hb'
                refine ⟨_, alookup_aset_self _ _ _, rfl, ?_⟩
                intro _
                obtain ⟨hs, _⟩ := hbready hr
                exact ⟨hs, by simp⟩
              · exact ⟨b, by rw [alookup_aset_ne _ _ _ _ hxe]; exact hb,
                  hbres, hbready⟩
      · simp only [hres, hr, Bool.not_true, if_false, ite_false] at happ
        injection happ with happ'
        subst happ'
        exact h
    · simp only [Bool.not_eq_true] at hres
      simp only [hres, Bool.not_false, if_pos, ite_true] at happ
      exact absurd happ (by simp)

theorem encodeRecord_length (r : EvRecord) : 9 ≤ (encodeRecord r).length := by
  cases r <;> simp [encodeRecord, writeU32]

theorem drainFuel_encodeStream (records : List EvRecord) :
    ∀ (st : List (ℕ × DrainAnimator)) (fuel : ℕ),
      (∀ r ∈ records, wfRecord r) → statesOK st records →
      (encodeStream records).length < fuel →
      drainFuel fuel st (encodeStream records) = foldEffects st records := by
  induction records with
  | nil =>
    intro st fuel _ _ _
    simp [encodeStream, drainFuel, foldEffects]
  | cons r rs ih =>
    intro st fuel hwf hok hfuel
    cases fuel with
    | zero => exact absurd hfuel (Nat.not_lt_zero _)
    | succ f =>
      have hfuel' : (encodeStream rs).length < f := by
        have h9 := encodeRecord_length r
        have hlen : (encodeStream (r :: rs)).length =
            (encodeRecord r).length + (encodeStream rs).length := by
          simp [encodeStream]
        omega
      have hwfr := hwf r (List.mem_cons_self _ _)
      have hwfs : ∀ x ∈ rs, wfRecord x :=
        fun x hx => hwf x (List.mem_cons_of_mem _ hx)
      cases r with
      | setInput e idx v =>
        obtain ⟨he, hidx, hv⟩ := hwfr
        obtain ⟨st', happly⟩ :=
          applySetInputEvent_some st e idx v
            (hok e idx v (List.mem_cons_self _ _))
        have hok' : statesOK st' rs := fun e' i' v' hm =>
          entityOK_preserved st st' e idx v happly e' i'
            (hok e' i' v' (List.mem_cons_of_mem _ hm))
        have htag : readU32v (setInputTypeTag % 256)
            (setInputTypeTag / 256 % 256) (setInputTypeTag / 65536 % 256)
            (setInputTypeTag / 16777216 % 256) = setInputTypeTag :=
          readU32_writeU32 _ (by norm_num [setInputTypeTag])
        simp only [encodeStream, encodeRecord, writeU32, List.cons_append,
          List.nil_append, List.append_assoc]
        simp only [drainFuel, htag, readU32_writeU32 e he,
          readU32_writeU32 idx hidx, readU32_writeU32 v hv, if_pos rfl, happly]
        rw [ih st' f hwfs hok' hfuel']
        simp [foldEffects, recordEffect, happly]
      | other tag e payload =>
        obtain ⟨htag, hne, hlen⟩ := hwfr
        simp only [encodeStream, encodeRecord, writeU32, List.cons_append,
          List.nil_append, List.append_assoc]
        simp only [drainFuel, readU32_writeU32 tag htag, if_neg hne]
        rw [List.drop_left]
        rw [ih st f hwfs
          (fun e' i' v' hm => hok e' i' v' (List.mem_cons_of_mem _ hm)) hfuel']
        simp [foldEffects, recordEffect]

/-- C8: draining a buffer of appended records — `set_input` records
addressing live, resource-bearing animators, interleaved with arbitrary
forward-compatible records of other type tags — applies exactly the
`set_input` effects, in append order, to the addressed runtime contexts;
every unrecognized record is skipped by its declared payload size, so the
records after it are still parsed correctly. -/
theorem C8_event_stream_drain (records : List EvRecord)
    (st : List (ℕ × DrainAnimator))
    (hwf : ∀ r ∈ records, wfRecord r) (hok : statesOK st records) :
    processEventStream st (encodeStream records) = foldEffects st records :=
  drainFuel_encodeStream records st _ hwf hok (Nat.lt_succ_self _)

theorem Qrt.zero_a : (0 : Qrt).a = 0 := rfl

theorem Qrt.zero_b : (0 : Qrt).b = 0 := rfl

theorem Qrt.one_a : (1 : Qrt).a = 1 := rfl

theorem Qrt.one_b : (1 : Qrt).b = 0 := rfl

theorem Qrt.add_a (x y : Qrt) : (x + y).a = x.a + y.a := rfl

theorem Qrt.add_b (x y : Qrt) : (x + y).b = x.b + y.b := rfl

theorem Qrt.neg_a (x : Qrt) : (-x).a = -x.a := rfl

theorem Qrt.neg_b (x : Qrt) : (-x).b = -x.b := rfl

theorem Qrt.mul_a (x y : Qrt) : (x * y).a = x.a * y.a + 1745 * (x.b * y.b) := rfl

theorem Qrt.mul_b (x y : Qrt) : (x * y).b = x.a * y.b + x.b * y.a := rfl

theorem Qrt.sub_a (x y : Qrt) : (x - y).a = x.a - y.a := by
  show (x + -y).a = x.a - y.a
  simp [Qrt.add_a, Qrt.neg_a]
  ring

theorem Qrt.sub_b (x y : Qrt) : (x - y).b = x.b - y.b := by
  show (x + -y).b = x.b - y.b
  simp [Qrt.add_b, Qrt.neg_b]
  ring

theorem ofQ_inj (p q : ℚ) : Qrt.ofQ p = Qrt.ofQ q ↔ p = q := by
  constructor
  · intro h
    have := congrArg Qrt.a h
    simpa [Qrt.ofQ] using this
  · intro h
    rw [h]

theorem ofQ_zero : Qrt.ofQ 0 = 0 := rfl

theorem ofQ_one : Qrt.ofQ 1 = 1 := rfl

theorem ofQ_add (p q : ℚ) : Qrt.ofQ p + Qrt.ofQ q = Qrt.ofQ (p + q) := by
  ext <;> simp [Qrt.ofQ, Qrt.add_a, Qrt.add_b]

theorem ofQ_sub (p q : ℚ) : Qrt.ofQ p - Qrt.ofQ q = Qrt.ofQ (p - q) := by
  ext <;> simp [Qrt.ofQ, Qrt.sub_a, Qrt.sub_b]

theorem ofQ_mul (p q : ℚ) : Qrt.ofQ p * Qrt.ofQ q = Qrt.ofQ (p * q) := by
  ext <;> simp [Qrt.ofQ, Qrt.mul_a, Qrt.mul_b]

theorem mk_add (a b c d : ℚ) : (⟨a, b⟩ : Qrt) + ⟨c, d⟩ = ⟨a + c, b + d⟩ := rfl

theorem mk_sub (a b c d : ℚ) : (⟨a, b⟩ : Qrt) - ⟨c, d⟩ = ⟨a - c, b - d⟩ := by
  ext <;> simp [Qrt.sub_a, Qrt.sub_b]

theorem mk_mul (a b c d : ℚ) :
    (⟨a, b⟩ : Qrt) * ⟨c, d⟩ = ⟨a * c + 1745 * (b * d), a * d + b * c⟩ := rfl

/-- Every table entry of `ops1745` is the exact (reciprocal) square root of
its argument, and the one comparison the run performs is the true `<`:
the finite oracle agrees with exact real arithmetic on this run. -/
theorem ops1745_exact :
    Qrt.ofQ 65 * Qrt.ofQ 65 = Qrt.ofQ 4225 ∧
    Qrt.ofQ 35 * Qrt.ofQ 35 = Qrt.ofQ 1225 ∧
    Qrt.ofQ (1/200) * Qrt.ofQ (1/200) * Qrt.ofQ 40000 = 1 ∧
    Qrt.ofQ (1/55) * Qrt.ofQ (1/55) * Qrt.ofQ 3025 = 1 ∧
    Qrt.ofQ (1/75) * Qrt.ofQ (1/75) * Qrt.ofQ 5625 = 1 ∧
    (⟨0, 1/1745⟩ : Qrt) * ⟨0, 1/1745⟩ * Qrt.ofQ 1745 = 1 ∧
    (ops1745.ltb (Qrt.ofQ 10000) (Qrt.ofQ 40000) = true ∧ (10000 : ℚ) < 40000) := by
  refine ⟨?_, ?_, ?_, ?_, ?_, ?_, ?_, ?_⟩ <;>
    first
      | (ext <;> simp [Qrt.ofQ, Qrt.mul_a, Qrt.mul_b, Qrt.one_a, Qrt.one_b] <;> norm_num)
      | (simp [ops1745, Qrt.ofQ] <;> norm_num)
      | norm_num





theorem c7_lens : chainLens ops1745 ikCexChain = [Qrt.ofQ 65, Qrt.ofQ 35] := by
  simp only [ikCexChain, chainLens, lengthV, v3q, V3.sub, V3.sqLen]
  norm_num [ofQ_sub, ofQ_mul, ofQ_add, ofQ_inj, ops1745]

theorem c7_lens_sum : ([Qrt.ofQ 65, Qrt.ofQ 35] : List Qrt).sum = Qrt.ofQ 100 := by
  simp [ofQ_add]
  norm_num [ofQ_inj]

theorem c7_clamp :
    clampTarget ops1745 (getV ikCexChain 0) ikCexTarget (Qrt.ofQ 100) = v3q 0 100 := by
  simp only [clampTarget, ikCexChain, ikCexTarget, getV, List.getD, normalizedV,
    v3q, V3.sub, V3.sqLen, V3.smul, V3.add]
  norm_num [ops1745, Qrt.ofQ, V3.mk.injEq, Qrt.mk.injEq, mk_add, mk_sub, mk_mul]

theorem c7_pin :
    ikCexChain.set 2 (v3q 0 100) = [v3q 0 0, v3q 33 56, v3q 0 100] := by
  simp [ikCexChain]

theorem c7_back :
    backLoop ops1745 [Qrt.ofQ 65, Qrt.ofQ 35]
      [v3q 0 0, v3q 33 56, v3q 0 100] 2 = [v3q 0 0, v3q 21 72, v3q 0 100] := by
  simp only [backLoop, backStep, getV, getK, List.getD, normalizedV, v3q,
    V3.sub, V3.sqLen, V3.smul, V3.add, List.set]
  norm_num [ops1745, Qrt.ofQ, V3.mk.injEq, Qrt.mk.injEq, mk_add, mk_sub, mk_mul]

theorem c7_fwd1 :
    fwdStep ops1745 [Qrt.ofQ 65, Qrt.ofQ 35]
      [v3q 0 0, v3q 21 72, v3q 0 100] 1 =
      [v3q 0 0, v3q (91/5) (312/5), v3q 0 100] := by
  simp only [fwdStep, getV, getK, List.getD, normalizedV, v3q,
    V3.sub, V3.sqLen, V3.smul, V3.add, List.set]
  norm_num [ops1745, Qrt.ofQ, V3.mk.injEq, Qrt.mk.injEq, mk_add, mk_sub, mk_mul]

theorem c7_fwd2 :
    fwdStep ops1745 [Qrt.ofQ 65, Qrt.ofQ 35]
      [v3q 0 0, v3q (91/5) (312/5), v3q 0 100] 2 =
      [v3q 0 0, v3q (91/5) (312/5),
        ⟨⟨91/5, -637/1745⟩, ⟨312/5, 1316/1745⟩, ⟨0, 0⟩⟩] := by
  simp only [fwdStep, getV, getK, List.getD, normalizedV, v3q,
    V3.sub, V3.sqLen, V3.smul, V3.add, List.set]
  norm_num [ops1745, Qrt.ofQ, V3.mk.injEq, Qrt.mk.injEq, mk_add, mk_sub, mk_mul]

theorem c7_solve :
    solveChainPositions ops1745 ikCexChain ikCexTarget 1 =
      [v3q 0 0, v3q (91/5) (312/5),
        ⟨⟨91/5, -637/1745⟩, ⟨312/5, 1316/1745⟩, ⟨0, 0⟩⟩] := by
  simp only [solveChainPositions]
  rw [c7_lens, c7_lens_sum]
  have hn : ikCexChain.length = 3 := by simp [ikCexChain]
  rw [hn, c7_clamp]
  show ikIterate ops1745 [Qrt.ofQ 65, Qrt.ofQ 35] (v3q 0 100) 3 1 ikCexChain = _
  rw [ikIterate, ikIterate]
  unfold ikIteration
  show fwdLoop ops1745 [Qrt.ofQ 65, Qrt.ofQ 35]
      (backLoop ops1745 [Qrt.ofQ 65, Qrt.ofQ 35]
        (ikCexChain.set 2 (v3q 0 100)) 2) 1 2 = _
  rw [c7_pin, c7_back]
  rw [fwdLoop, fwdLoop, fwdLoop]
  rw [c7_fwd1, c7_fwd2]





variable {K : Type}

theorem ikIteration_fix [CommRing K] (ops : NumOps K) (len0 : K)
    (p0 u x : V3 K) (hu : u.sqLen = len0 * len0)
    (hl : ops.invSqrt (len0 * len0) * len0 = 1) :
    ikIteration ops [len0] (p0.add u) 2 [p0, x] = [p0, p0.add u] := by
  unfold ikIteration
  show fwdLoop ops [len0] (backLoop ops [len0] ([p0, x].set 1 (p0.add u)) 1) 1 1 = _
  rw [backLoop]
  show fwdLoop ops [len0] [p0, p0.add u] 1 1 = _
  rw [fwdLoop, fwdLoop]
  unfold fwdStep
  simp only [getV, getK, Nat.sub_self, List.getD_cons_zero, List.getD_cons_succ]
  have hsub : (p0.add u).sub p0 = u := by
    ext <;> simp [V3.add, V3.sub]
  rw [hsub]
  unfold normalizedV
  rw [hu]
  have hfix : (u.smul (ops.invSqrt (len0 * len0))).smul len0 = u := by
    ext
    · show u.x * ops.invSqrt (len0 * len0) * len0 = u.x
      linear_combination u.x * hl
    · show u.y * ops.invSqrt (len0 * len0) * len0 = u.y
      linear_combination u.y * hl
    · show u.z * ops.invSqrt (len0 * len0) * len0 = u.z
      linear_combination u.z * hl
  rw [hfix]
  rfl

theorem ikIterate_fix [CommRing K] (ops : NumOps K) (len0 : K)
    (p0 u : V3 K) (hu : u.sqLen = len0 * len0)
    (hl : ops.invSqrt (len0 * len0) * len0 = 1) (k : ℕ) :
    ikIterate ops [len0] (p0.add u) 2 k [p0, p0.add u] = [p0, p0.add u] := by
  induction k with
  | zero => rfl
  | succ k ih =>
    rw [ikIterate, ikIteration_fix ops len0 p0 u _ hu hl]
    exact ih





/-- C7 (counterexample): for the bent 2-segment chain `(0,0,0), (33,56,0),
(68,56,0)` (reach 100) with unreachable target `(0,200,0)` and one solver
iteration, the target is clamped to `(0,100,0)` as the claim states, but the
solved last joint does *not* equal the clamped target (its x-coordinate is
`91/5 - (637/1745)·√1745 ≈ 2.95`, not 0). -/
theorem C7_counterexample :
    clampTarget ops1745 (getV ikCexChain 0) ikCexTarget
        ((chainLens ops1745 ikCexChain).sum) = v3q 0 100 ∧
    getV (solveChainPositions ops1745 ikCexChain ikCexTarget 1) 2 ≠ v3q 0 100 := by
  constructor
  · rw [c7_lens, c7_lens_sum]
    exact c7_clamp
  · rw [c7_solve]
    intro h
    have hx := congrArg (fun v => v.x.a) h
    norm_num [getV, List.getD, v3q, Qrt.ofQ] at hx

variable {K : Type}

/-- C7 (amended): the unreachable target is clamped exactly as the claim
states — projected onto the max-reach sphere along the root→target
direction (second conjunct, for any chain); but exact coincidence of the
solved last joint with the clamped target after the fixed iteration count
holds for single-segment (2-joint) chains (first conjunct), not in general
(see the counterexample).  The hypotheses state that the numeric primitives
behave as exact (reciprocal) square roots on the values this run uses. -/
theorem C7_ik_clamp_and_two_joint [CommRing K] (ops : NumOps K)
    (p0 p1 target : V3 K) (iters : ℕ) (hiters : 1 ≤ iters)
    (hltb : ops.ltb (ops.sqrtf (p1.sub p0).sqLen * ops.sqrtf (p1.sub p0).sqLen)
      ((target.sub p0).sqLen) = true)
    (hc : (target.sub p0).sqLen *
      (ops.invSqrt (target.sub p0).sqLen * ops.invSqrt (target.sub p0).sqLen) = 1)
    (hl : ops.invSqrt (ops.sqrtf (p1.sub p0).sqLen * ops.sqrtf (p1.sub p0).sqLen) *
      ops.sqrtf (p1.sub p0).sqLen = 1) :
    solveChainPositions ops [p0, p1] target iters =
      [p0, p0.add ((normalizedV ops (target.sub p0)).smul
        (ops.sqrtf (p1.sub p0).sqLen))] ∧
    (∀ (root tgt : V3 K) (lenSum : K),
      ops.ltb (lenSum * lenSum) ((tgt.sub root).sqLen) = true →
      clampTarget ops root tgt lenSum =
        root.add ((normalizedV ops (tgt.sub root)).smul lenSum)) := by
  have hclamp : ∀ (root tgt : V3 K) (lenSum : K),
      ops.ltb (lenSum * lenSum) ((tgt.sub root).sqLen) = true →
      clampTarget ops root tgt lenSum =
        root.add ((normalizedV ops (tgt.sub root)).smul lenSum) := by
    intro root tgt lenSum hcond
    unfold clampTarget
    simp only [hcond, if_true, ite_true]
  refine ⟨?_, hclamp⟩
  set len0 := ops.sqrtf (p1.sub p0).sqLen with hlen0
  set u := (normalizedV ops (target.sub p0)).smul len0 with hudef
  have hu : u.sqLen = len0 * len0 := by
    rw [hudef]
    unfold normalizedV
    show ((((target.sub p0).smul (ops.invSqrt (target.sub p0).sqLen))).smul
      len0).sqLen = len0 * len0
    simp only [V3.smul, V3.sqLen] at hc ⊢
    linear_combination (len0 * len0) * hc
  simp only [solveChainPositions, chainLens, lengthV, List.length_cons,
    List.length_nil, List.sum_cons, List.sum_nil]
  rw [add_zero]
  show ikIterate ops [len0] (clampTarget ops (getV [p0, p1] 0) target len0)
    2 iters [p0, p1] = _
  have hget0 : getV [p0, p1] 0 = p0 := by
    simp [getV, List.getD_cons_zero]
  rw [hget0, hclamp p0 target len0 hltb]
  obtain ⟨m, rfl⟩ : ∃ m, iters = m + 1 := ⟨iters - 1, by omega⟩
  rw [ikIterate, ikIteration_fix ops len0 p0 u p1 hu hl]
  exact ikIterate_fix ops len0 p0 u hu hl m





/-- Witness for `C7_ik_clamp_and_two_joint`: single-segment chain
`(0,0,0)-(3,4,0)` (length 5), unreachable target `(0,20,0)`: one iteration
puts the last joint exactly at the clamped target `(0,4,0)·5/20·… = (0,5,0)`. -/
theorem C7_ik_clamp_and_two_joint_witness :
    (solveChainPositions opsQw [(⟨0, 0, 0⟩ : V3 ℚ), ⟨3, 4, 0⟩] ⟨0, 20, 0⟩ 1 =
      [⟨0, 0, 0⟩, (⟨0, 0, 0⟩ : V3 ℚ).add
        ((normalizedV opsQw ((⟨0, 20, 0⟩ : V3 ℚ).sub ⟨0, 0, 0⟩)).smul
          (opsQw.sqrtf (((⟨3, 4, 0⟩ : V3 ℚ).sub ⟨0, 0, 0⟩).sqLen)))]) ∧
    (∀ (root tgt : V3 ℚ) (lenSum : ℚ),
      opsQw.ltb (lenSum * lenSum) ((tgt.sub root).sqLen) = true →
      clampTarget opsQw root tgt lenSum =
        root.add ((normalizedV opsQw (tgt.sub root)).smul lenSum)) :=
  C7_ik_clamp_and_two_joint opsQw ⟨0, 0, 0⟩ ⟨3, 4, 0⟩ ⟨0, 20, 0⟩ 1
    (le_refl 1)
    (by norm_num [opsQw, V3.sub, V3.sqLen])
    (by norm_num [opsQw, V3.sub, V3.sqLen])
    (by norm_num [opsQw, V3.sub, V3.sqLen])



/-- Auxiliary: wrapped time lies in `[0, L)` whenever `L > 0`. -/
theorem timeMod_bounds (t L : ℚ) (hL : 0 < L) :
    0 ≤ timeMod t L ∧ timeMod t L < L := by
  have hL0 : L ≠ 0 := ne_of_gt hL
  have hfr : timeMod t L = L * Int.fract (t / L) := by
    unfold timeMod Int.fract
    field_simp
  constructor
  · rw [hfr]
    exact mul_nonneg (le_of_lt hL) (Int.fract_nonneg _)
  · rw [hfr]
    have h1 : Int.fract (t / L) < 1 := Int.fract_lt_one _
    calc L * Int.fract (t / L) < L * 1 := by
          exact (mul_lt_mul_left hL).mpr h1
      _ = L := by ring

/-- C1 (counterexample): with identity starting transform, delta rotation
180° about z and delta position `(1,0,0)`, a ready root-motion-enabled
`updateAnimator` call yields a transform different from the claim's formula
(which rotates the delta position by the old, pre-composition rotation):
the code moves the entity to `(-1,0,0)`, the claim predicts `(1,0,0)`. -/
theorem C1_counterexample :
    updateAnimatorTransform animatorEnvAll (some ⟨true, true⟩) rmCexDelta rmCexTr
      ≠ applyRootMotionSpec rmCexTr rmCexDelta := by
  simp [updateAnimatorTransform, animatorEnvAll, applyRootMotion,
    applyRootMotionSpec, rmCexTr, rmCexDelta, Quat.mul, Quat.rotate,
    Quat.identity, V3.add, V3.zero]

/-- C1 (amended): for every animator whose bound controller is ready and
configured to use root motion (with model present and ready and pose
acquirable), `updateAnimator` sets
new rotation = old rotation ∘ delta rotation and
new position = old position + (delta position rotated by the *already
composed* rotation old ∘ delta), not by the pre-composition rotation. -/
theorem C1_rootMotion_composition (env : AnimatorEnv) (r : AnimCtrlRes)
    (rm : RootMotion) (tr : WTransform)
    (hready : r.ready = true) (hrm : r.useRootMotion = true)
    (hmi : env.hasModelInstance = true) (hmr : env.modelReady = true)
    (hpose : env.poseAvailable = true) :
    updateAnimatorTransform env (some r) rm tr =
      ⟨tr.pos.add ((tr.rot.mul rm.rot).rotate rm.pos), tr.rot.mul rm.rot⟩ := by
  simp [updateAnimatorTransform, hready, hrm, hmi, hmr, hpose, applyRootMotion]

/-- Witness for `C1_rootMotion_composition` at the counterexample input. -/
theorem C1_rootMotion_composition_witness :
    updateAnimatorTransform animatorEnvAll (some ⟨true, true⟩) rmCexDelta rmCexTr =
      ⟨rmCexTr.pos.add ((rmCexTr.rot.mul rmCexDelta.rot).rotate rmCexDelta.pos),
       rmCexTr.rot.mul rmCexDelta.rot⟩ :=
  C1_rootMotion_composition animatorEnvAll ⟨true, true⟩ rmCexDelta rmCexTr
    rfl rfl rfl rfl rfl

/-- C3: for every Animable with a bound, ready clip of positive length, with
the model present and ready and the pose acquirable, `updateAnimable` sets
the elapsed time to `(old time + dt) mod L`, and `0 ≤ time < L` holds after
the update. -/
theorem C3_animable_time_wraps (env : AnimableEnv) (a : Animable)
    (clip : AnimClip) (dt : ℚ)
    (hclip : a.animation = some clip) (hready : clip.ready = true)
    (hmi : env.hasModelInstance = true) (hmr : env.modelReady = true)
    (hpose : env.poseAvailable = true) (hL : 0 < clip.length) :
    (updateAnimable env a dt).time = timeMod (a.time + dt) clip.length ∧
      0 ≤ (updateAnimable env a dt).time ∧
      (updateAnimable env a dt).time < clip.length := by
  have hupd : updateAnimable env a dt =
      { a with time := timeMod (a.time + dt) clip.length } := by
    simp [updateAnimable, hclip, hready, hmi, hmr, hpose]
  refine ⟨by rw [hupd], ?_, ?_⟩
  · rw [hupd]
    exact (timeMod_bounds _ _ hL).1
  · rw [hupd]
    exact (timeMod_bounds _ _ hL).2

/-- C4 (counterexample): at elapsed time 1.0 s the pre-wrap frame index
`round(1.0 * 10) = 10` equals the last keyframe's frame, but the written
value is the value at the wrapped frame `10 % 10 = 0`, namely `0.0` — not
the last keyframe's value `1.0` as the claim states. -/
theorem C4_counterexample :
    applyPropertyAnimator paAsset01 1 = some [some 0] ∧ (0 : ℚ) ≠ 1 := by
  constructor
  · have htr : truncQ ((21 : ℚ)/2) = 10 := by
      unfold truncQ
      rw [if_neg (by norm_num)]
      norm_num
    have htm : Int.tmod (truncQ ((21 : ℚ)/2)) 10 = 0 := by
      rw [htr]; decide
    simp only [applyPropertyAnimator, paAsset01, List.getLast?]
    norm_num [htm, sampleCurve, scanKeys]
  · norm_num

/-- C4 (amended): for an enabled property animator with a ready asset whose
first curve has at least two keyframes, one update step writes, for every
curve, the sample at frame `round(time * fps)` wrapped modulo the first
curve's last keyframe frame; a wrapped frame equal to the first keyframe's
frame writes the first keyframe's value exactly; and a *pre-wrap* frame
equal to the last keyframe's frame wraps to frame 0, so when the first
keyframe is at frame 0 it is the *first* keyframe's value that is written,
not the last one's. -/
theorem C4_curve_sampling (pa : PropertyAnimatorC) (anim : PropertyAnimation)
    (dt : ℚ) (c0 : PACurve) (crest : List PACurve)
    (k0 k1 : Keyframe) (krest : List Keyframe) (klast : Keyframe)
    (ha : pa.animation = some anim) (hready : anim.ready = true)
    (hen : pa.disabled = false)
    (hcurves : anim.curves = c0 :: crest)
    (hkeys : c0.keys = k0 :: k1 :: krest)
    (hlastk : c0.keys.getLast? = some klast)
    (h01 : k0.frame < k1.frame) (hlast : 0 < klast.frame) :
    (updatePropertyAnimatorStep pa dt =
      ({ pa with time := pa.time + dt },
        .wrote (anim.curves.map (fun c =>
          sampleCurve
            (Int.tmod (truncQ ((pa.time + dt) * anim.fps + 1/2)) klast.frame)
            c.keys)))) ∧
    (∀ fw : ℤ, fw = k0.frame → sampleCurve fw c0.keys = some k0.value) ∧
    (truncQ ((pa.time + dt) * anim.fps + 1/2) = klast.frame → k0.frame = 0 →
      sampleCurve
        (Int.tmod (truncQ ((pa.time + dt) * anim.fps + 1/2)) klast.frame)
        c0.keys = some k0.value) := by
  have hfirst : ∀ fw : ℤ, fw = k0.frame → sampleCurve fw c0.keys = some k0.value := by
    intro fw hfw
    subst hfw
    rw [hkeys]
    simp only [sampleCurve, scanKeys, if_pos (le_of_lt h01)]
    have : ((k0.frame - k0.frame : ℤ) : ℚ) = 0 := by
      simp
    rw [this]
    norm_num
  refine ⟨?_, hfirst, ?_⟩
  · have hne : klast.frame ≠ 0 := ne_of_gt hlast
    simp [updatePropertyAnimatorStep, ha, hready, hen, hcurves, hkeys,
      applyPropertyAnimator, hne, hkeys ▸ hlastk]
  · intro hf h0
    rw [hf, Int.tmod_self]
    exact hfirst 0 h0.symm

/-- Witness for `C4_curve_sampling`: the 2-keyframe asset `paAsset01` with
`pa.time = 0`, `dt = 0`: wrapped frame 0 equals the first keyframe's frame
and the written value is `0.0`. -/
theorem C4_curve_sampling_witness :
    (updatePropertyAnimatorStep ⟨some paAsset01, false, 0⟩ 0 =
      ({ animation := some paAsset01, disabled := false, time := 0 + 0 },
        .wrote (paAsset01.curves.map (fun c =>
          sampleCurve
            (Int.tmod (truncQ (((0 : ℚ) + 0) * paAsset01.fps + 1/2)) (10 : ℤ))
            c.keys)))) ∧
    (∀ fw : ℤ, fw = (0 : ℤ) →
      sampleCurve fw (PACurve.mk [⟨0, 0⟩, ⟨10, 1⟩]).keys = some 0) ∧
    (truncQ (((0 : ℚ) + 0) * paAsset01.fps + 1/2) = (10 : ℤ) → (0 : ℤ) = 0 →
      sampleCurve
        (Int.tmod (truncQ (((0 : ℚ) + 0) * paAsset01.fps + 1/2)) (10 : ℤ))
        (PACurve.mk [⟨0, 0⟩, ⟨10, 1⟩]).keys = some 0) :=
  C4_curve_sampling ⟨some paAsset01, false, 0⟩ paAsset01 0
    ⟨[⟨0, 0⟩, ⟨10, 1⟩]⟩ [] ⟨0, 0⟩ ⟨10, 1⟩ [] ⟨10, 1⟩
    rfl rfl rfl rfl rfl rfl (by decide) (by decide)

/-- C5 (counterexample): with the scenario asset (`paAsset01`) running at
time 0.6 s, disabling resets time to 0 and immediately applies value `0.0`,
but *re-enabling performs no immediate apply at all* — contrary to the
claim's "the immediately re-applied property value is 0.0". -/
theorem C5_counterexample :
    enablePropertyAnimator ⟨some paAsset01, false, 3/5⟩ false =
      (⟨some paAsset01, true, 0⟩, .wrote [some 0]) ∧
    enablePropertyAnimator ⟨some paAsset01, true, 0⟩ true =
      (⟨some paAsset01, false, 0⟩, .notInvoked) ∧
    ApplyOutcome.notInvoked ≠ ApplyOutcome.wrote [some 0] := by
  refine ⟨?_, by simp [enablePropertyAnimator], by simp⟩
  have htr : truncQ ((2 : ℚ)⁻¹) = 0 := by
    unfold truncQ
    rw [if_neg (by norm_num)]
    norm_num
  have htm : Int.tmod (truncQ ((2 : ℚ)⁻¹)) 10 = 0 := by
    rw [htr]; decide
  have htm2 : Int.tmod (truncQ ((1 : ℚ)/2)) 10 = 0 := by
    have : ((1 : ℚ)/2) = (2 : ℚ)⁻¹ := by norm_num
    rw [this, htr]; decide
  simp only [enablePropertyAnimator, applyPropertyAnimator, paAsset01,
    List.getLast?]
  norm_num [htm, htm2, sampleCurve, scanKeys]

/-- C5 (amended): disabling a property animator resets its time to 0 and
forces one immediate apply sampled at frame 0; re-enabling also resets the
time to 0 but performs *no* immediate apply (the property simply retains the
value written when it was disabled). -/
theorem C5_enable_disable (pa : PropertyAnimatorC) (anim : PropertyAnimation)
    (c0 : PACurve) (crest : List PACurve) (klast : Keyframe)
    (ha : pa.animation = some anim)
    (hcurves : anim.curves = c0 :: crest)
    (hlastk : c0.keys.getLast? = some klast)
    (hlast : 0 < klast.frame) :
    enablePropertyAnimator pa false =
      ({ pa with disabled := true, time := 0 },
        .wrote (anim.curves.map (fun c => sampleCurve 0 c.keys))) ∧
    (∀ pb : PropertyAnimatorC, enablePropertyAnimator pb true =
      ({ pb with disabled := false, time := 0 }, .notInvoked)) := by
  constructor
  · have hne : klast.frame ≠ 0 := ne_of_gt hlast
    have htm : Int.tmod (truncQ ((2 : ℚ)⁻¹)) klast.frame = 0 := by
      have htr : truncQ ((2 : ℚ)⁻¹) = 0 := by
        unfold truncQ
        rw [if_neg (by norm_num)]
        norm_num
      rw [htr]
      exact Int.zero_tmod _
    simp [enablePropertyAnimator, ha, applyPropertyAnimator, hcurves, hlastk,
      hne, htm]
  · intro pb
    simp [enablePropertyAnimator]

/-- Witness for `C5_enable_disable` at the scenario input. -/
theorem C5_enable_disable_witness :
    (enablePropertyAnimator ⟨some paAsset01, false, 3/5⟩ false =
      ({ animation := some paAsset01, disabled := true, time := 0 },
        .wrote (paAsset01.curves.map (fun c => sampleCurve 0 c.keys)))) ∧
    (∀ pb : PropertyAnimatorC, enablePropertyAnimator pb true =
      ({ pb with disabled := false, time := 0 }, .notInvoked)) :=
  C5_enable_disable ⟨some paAsset01, false, 3/5⟩ paAsset01
    ⟨[⟨0, 0⟩, ⟨10, 1⟩]⟩ [] ⟨10, 1⟩ rfl rfl rfl (by decide)

/-- C10: `enablePropertyAnimator(entity, false)` invokes the apply step with
no guards (second conjunct: a missing asset crashes it), and under the
claim's precondition — bound ready asset, nonempty first curve, last
keyframe frame positive — the unchecked accesses of the apply step
(`curves[0]`, `frames.back()`, `% frames.back()`) are all well-defined and
the call performs a write. -/
theorem C10_enable_false_safety (pa : PropertyAnimatorC)
    (anim : PropertyAnimation) (c0 : PACurve) (crest : List PACurve)
    (klast : Keyframe)
    (ha : pa.animation = some anim) (_hready : anim.ready = true)
    (hcurves : anim.curves = c0 :: crest)
    (hlastk : c0.keys.getLast? = some klast)
    (hlast : 0 < klast.frame) :
    (∃ ws, (enablePropertyAnimator pa false).2 = ApplyOutcome.wrote ws) ∧
    (enablePropertyAnimator ⟨none, false, 0⟩ false).2 = ApplyOutcome.crashed := by
  constructor
  · have hne : klast.frame ≠ 0 := ne_of_gt hlast
    refine ⟨(anim.curves.map (fun c =>
      sampleCurve (Int.tmod (truncQ ((0 : ℚ) * anim.fps + 1/2)) klast.frame)
        c.keys)), ?_⟩
    simp [enablePropertyAnimator, ha, applyPropertyAnimator, hcurves, hlastk, hne]
  · simp [enablePropertyAnimator]

/-- Witness for `C10_enable_false_safety` at the scenario asset. -/
theorem C10_enable_false_safety_witness :
    ((∃ ws, (enablePropertyAnimator ⟨some paAsset01, false, 3/5⟩ false).2 =
        ApplyOutcome.wrote ws) ∧
      (enablePropertyAnimator ⟨none, false, 0⟩ false).2 = ApplyOutcome.crashed) :=
  C10_enable_false_safety ⟨some paAsset01, false, 3/5⟩ paAsset01
    ⟨[⟨0, 0⟩, ⟨10, 1⟩]⟩ [] ⟨10, 1⟩ rfl rfl rfl rfl (by decide)

/-- C2: the checked setter `setAnimatorFloatInput` rejects an out-of-range
index, drops (with only a warning) a type-mismatched write, and stores an
in-range, correctly typed value — but the `setAnimatorInput` overload's
assertions are inverted: a write with a *valid in-range index and matching
declared `FLOAT` type* trips `ASSERT(input_idx >= lengthOf(decl.inputs))`
and is fatal in an assertion-enabled build (and in a release build the same
function applies out-of-range and type-mismatched writes unchecked). -/
theorem C2_input_setter_checks (a : AnimatorInputs) (idx : ℕ) (v : ℚ) :
    (idx ≥ a.decl.inputsCount → setAnimatorFloatInput a idx v = (a, false)) ∧
    (∀ slot mem, a.ctx = some mem → idx < a.decl.inputsCount →
      a.decl.inputs.get? idx = some slot → slot.type ≠ InType.flt →
      setAnimatorFloatInput a idx v = (a, true)) ∧
    (∀ slot mem, a.ctx = some mem → idx < a.decl.inputsCount →
      a.decl.inputs.get? idx = some slot → slot.type = InType.flt →
      setAnimatorFloatInput a idx v =
        ({ a with ctx := some ((slot.offset, InVal.f v) :: mem) }, false)) ∧
    setAnimatorInputFloat c2Animator 0 (1/2) = SetInputResult.fatalAssert := by
  refine ⟨?_, ?_, ?_, ?_⟩
  · intro h
    simp [setAnimatorFloatInput, h]
  · intro slot mem hctx hlt hslot hty
    have hslot' : a.decl.inputs[idx]? = some slot := by
      rw [← List.get?_eq_getElem?]
      exact hslot
    simp [setAnimatorFloatInput, Nat.not_le.mpr hlt, hctx, hslot', hty]
  · intro slot mem hctx hlt hslot hty
    have hslot' : a.decl.inputs[idx]? = some slot := by
      rw [← List.get?_eq_getElem?]
      exact hslot
    simp [setAnimatorFloatInput, Nat.not_le.mpr hlt, hctx, hslot', hty]
  · simp [setAnimatorInputFloat, c2Animator]

/-- Witness for `C2_input_setter_checks`: concrete rejected, warned, stored
and fatal calls. -/
theorem C2_input_setter_checks_witness :
    (setAnimatorFloatInput c2Animator 5 (1/2) = (c2Animator, false)) ∧
    (setAnimatorFloatInput ⟨⟨[⟨InType.u32, 0⟩], 1⟩, some []⟩ 0 (1/2) =
      (⟨⟨[⟨InType.u32, 0⟩], 1⟩, some []⟩, true)) ∧
    (setAnimatorFloatInput c2Animator 0 (1/2) =
      (⟨⟨[⟨InType.flt, 0⟩], 1⟩, some [(0, InVal.f (1/2))]⟩, false)) ∧
    setAnimatorInputFloat c2Animator 0 (1/2) = SetInputResult.fatalAssert :=
  ⟨(C2_input_setter_checks c2Animator 5 (1/2)).1 (by decide),
   (C2_input_setter_checks ⟨⟨[⟨InType.u32, 0⟩], 1⟩, some []⟩ 0 (1/2)).2.1
      ⟨InType.u32, 0⟩ [] rfl (by decide) rfl (by decide),
   (C2_input_setter_checks c2Animator 0 (1/2)).2.2.1
      ⟨InType.flt, 0⟩ [] rfl (by decide) rfl rfl,
   (C2_input_setter_checks c2Animator 0 (1/2)).2.2.2⟩

/-- C6: the IK slots are scanned in order and scanning stops at the first
slot with weight 0: the resulting pose is exactly the fold of the solver
over the slots *before* the first zero-weight slot, so the zero-weight slot
leaves the pose untouched and no later slot is processed. -/
theorem C6_ik_zero_weight_early_exit {P : Type} (solve : ℕ → IKSlot → P → P)
    (slots : List IKSlot) (k : ℕ) (s : IKSlot) (pose : P)
    (hk : slots.get? k = some s) (hw : s.weight = 0)
    (hpre : ∀ j s', j < k → slots.get? j = some s' → s'.weight ≠ 0) :
    processIKSlots solve slots 0 pose = foldSolveAll solve (slots.take k) 0 pose := by
  suffices h : ∀ (k : ℕ) (slots : List IKSlot) (idx : ℕ) (pose : P) (s : IKSlot),
      slots.get? k = some s → s.weight = 0 →
      (∀ j s', j < k → slots.get? j = some s' → s'.weight ≠ 0) →
      processIKSlots solve slots idx pose = foldSolveAll solve (slots.take k) idx pose by
    exact h k slots 0 pose s hk hw hpre
  intro k
  induction k with
  | zero =>
    intro slots idx pose s hk hw _
    match slots, hk with
    | s0 :: rest, hk =>
      have hs : s0 = s := by
        simpa using hk
      subst hs
      simp [processIKSlots, hw, foldSolveAll]
  | succ k ih =>
    intro slots idx pose s hk hw hpre
    match slots, hk with
    | s0 :: rest, hk =>
      have h0 : s0.weight ≠ 0 := by
        exact hpre 0 s0 (Nat.succ_pos k) rfl
      simp only [processIKSlots, h0, if_neg, List.take_succ_cons, foldSolveAll]
      exact ih rest (idx + 1) (solve idx s0 pose) s (by simpa using hk) hw
        (fun j s' hj hs' => hpre (j + 1) s' (Nat.succ_lt_succ hj) (by simpa using hs'))

/-- Witness for `C6_ik_zero_weight_early_exit`: 4 slots with weights
`[1, 0, 5, 7]` — only the first slot is processed. -/
theorem C6_ik_zero_weight_early_exit_witness :
    processIKSlots (fun idx _ p => p * 3 + idx + 1)
        [⟨1, V3.zero⟩, ⟨0, V3.zero⟩, ⟨5, V3.zero⟩, ⟨7, V3.zero⟩] 0 (0 : ℕ) =
      foldSolveAll (fun idx _ p => p * 3 + idx + 1)
        ([⟨1, V3.zero⟩, ⟨0, V3.zero⟩, ⟨5, V3.zero⟩, ⟨7, V3.zero⟩].take 1) 0 0 :=
  C6_ik_zero_weight_early_exit (fun idx _ p => p * 3 + idx + 1)
    [⟨1, V3.zero⟩, ⟨0, V3.zero⟩, ⟨5, V3.zero⟩, ⟨7, V3.zero⟩] 1 ⟨0, V3.zero⟩ 0
    rfl rfl
    (by
      intro j s' hj hs'
      obtain rfl : j = 0 := by omega
      simp only [List.get?] at hs'
      injection hs' with h
      subst h
      norm_num)

/-- C9: the entity→index invariant of the Animator collection is preserved
by `createAnimator` (for an entity not yet present) and by
`destroyAnimator`, whose swap-with-last-and-pop removal updates the map
entry of the entity moved into the vacated slot — including the case where
the destroyed animator is itself the last record. -/
theorem C9_collection_invariant (s : AnimatorStore) (e : ℕ) (hwf : wfStore s) :
    (alookup s.map e = none → wfStore (createAnimator s e)) ∧
    (∀ s', destroyAnimator s e = some s' → wfStore s') := by
  obtain ⟨hfwd, hbwd, hnd⟩ := hwf
  constructor
  · intro hnone
    unfold wfStore createAnimator
    refine ⟨?_, ?_, nodup_akeys_aset _ _ _ hnd⟩
    · intro i a ha
      by_cases hi : i < s.animators.length
      · rw [List.getElem?_append, if_pos hi] at ha
        have hl := hfwd i a ha
        have hae : a.entity ≠ e := by
          intro heq
          rw [heq, hnone] at hl
          exact absurd hl (by simp)
        rw [alookup_aset_ne _ _ _ _ hae]
        exact hl
      · have hlen : i < s.animators.length + 1 := by
          have := (List.getElem?_eq_some.mp ha).1
          simpa using this
        have hieq : i = s.animators.length := by omega
        subst hieq
        rw [List.getElem?_concat_length] at ha
        injection ha with ha'
        subst ha'
        exact alookup_aset_self _ _ _
    · intro e' i hlk
      by_cases he : e' = e
      · subst he
        rw [alookup_aset_self] at hlk
        injection hlk with hi
        subst hi
        exact ⟨⟨e'⟩, List.getElem?_concat_length _ _, rfl⟩
      · rw [alookup_aset_ne _ _ _ _ he] at hlk
        obtain ⟨a, ha, hae⟩ := hbwd e' i hlk
        have hi : i < s.animators.length := (List.getElem?_eq_some.mp ha).1
        exact ⟨a, by rw [List.getElem?_append, if_pos hi]; exact ha, hae⟩
  · intro s' hdes
    unfold destroyAnimator at hdes
    cases hlk : alookup s.map e with
    | none => rw [hlk] at hdes; exact absurd hdes (by simp)
    | some idx =>
      rw [hlk] at hdes
      cases hgl : s.animators.getLast? with
      | none => rw [hgl] at hdes; exact absurd hdes (by simp)
      | some last =>
        rw [hgl] at hdes
        have hs' : s' = ⟨swapAndPop s.animators idx,
            aerase (aset s.map last.entity idx) e⟩ := by
          have : some (AnimatorStore.mk (swapAndPop s.animators idx)
              (aerase (aset s.map last.entity idx) e)) = some s' := hdes
          injection this with h
          exact h.symm
        subst hs'
        obtain ⟨aidx, haidx, haidxe⟩ := hbwd e idx hlk
        have hidxlt : idx < s.animators.length :=
          (List.getElem?_eq_some.mp haidx).1
        have hlaste : s.animators[s.animators.length - 1]? = some last := by
          rw [← List.getLast?_eq_getElem?]
          exact hgl
        have hlastlk : alookup s.map last.entity =
            some (s.animators.length - 1) :=
          hfwd _ last hlaste
        have hnd1 : (akeys (aset s.map last.entity idx)).Nodup :=
          nodup_akeys_aset _ _ _ hnd
        unfold wfStore
        refine ⟨?_, ?_, nodup_akeys_aerase _ _ hnd1⟩
        · intro i b hb
          have hilt : i < s.animators.length - 1 := by
            have h1 := (List.getElem?_eq_some.mp hb).1
            rwa [length_swapAndPop _ _ _ hgl] at h1
          rw [getElem?_swapAndPop _ _ _ hgl i hilt] at hb
          by_cases hiidx : i = idx
          · rw [if_pos hiidx] at hb
            injection hb with hb'
            subst hb'
            subst hiidx
            have hne : last.entity ≠ e := by
              intro heq
              rw [heq, hlk] at hlastlk
              injection hlastlk with h'
              omega
            rw [alookup_aerase_ne _ _ _ hne, alookup_aset_self]
          · rw [if_neg hiidx] at hb
            have hbe : b.entity ≠ e := by
              intro heq
              have := hfwd i b hb
              rw [heq, hlk] at this
              injection this with h'
              exact hiidx h'.symm
            have hbl : b.entity ≠ last.entity := by
              intro heq
              have := hfwd i b hb
              rw [heq, hlastlk] at this
              injection this with h'
              omega
            rw [alookup_aerase_ne _ _ _ hbe, alookup_aset_ne _ _ _ _ hbl]
            exact hfwd i b hb
        · intro e' i hlk2
          have he' : e' ≠ e := by
            intro heq
            rw [heq, alookup_aerase_self _ _ hnd1] at hlk2
            exact absurd hlk2 (by simp)
          rw [alookup_aerase_ne _ _ _ he'] at hlk2
          by_cases hel' : e' = last.entity
          · rw [hel', alookup_aset_self] at hlk2
            injection hlk2 with hieq
            subst hieq
            have hidxne : idx ≠ s.animators.length - 1 := by
              intro heq
              rw [heq, hlaste] at haidx
              injection haidx with h'
              apply he'
              rw [hel', h']
              exact haidxe
            refine ⟨last, ?_, hel'.symm⟩
            rw [getElem?_swapAndPop _ _ _ hgl idx (by omega), if_pos rfl]
          · rw [alookup_aset_ne _ _ _ _ hel'] at hlk2
            obtain ⟨b, hb, hbe⟩ := hbwd e' i hlk2
            have hilt : i < s.animators.length :=
              (List.getElem?_eq_some.mp hb).1
            have hine : i ≠ s.animators.length - 1 := by
              intro heq
              rw [heq, hlaste] at hb
              injection hb with h'
              apply hel'
              rw [← hbe, ← h']
            have hiidx : i ≠ idx := by
              intro heq
              rw [heq, haidx] at hb
              injection hb with h'
              apply he'
              rw [← hbe, ← h']
              exact haidxe
            refine ⟨b, ?_, hbe⟩
            rw [getElem?_swapAndPop _ _ _ hgl i (by omega), if_neg hiidx]
            exact hb

/-- Witness for `C9_collection_invariant`: a two-animator store; creating a
third entity and destroying the first (which swaps the last record into
slot 0) both preserve the invariant. -/
theorem C9_collection_invariant_witness :
    (alookup [(7, 0), (3, 1)] 5 = none →
      wfStore (createAnimator ⟨[⟨7⟩, ⟨3⟩], [(7, 0), (3, 1)]⟩ 5)) ∧
    (∀ s', destroyAnimator ⟨[⟨7⟩, ⟨3⟩], [(7, 0), (3, 1)]⟩ 5 = some s' →
      wfStore s') :=
  C9_collection_invariant ⟨[⟨7⟩, ⟨3⟩], [(7, 0), (3, 1)]⟩ 5
    ⟨by
      intro i a ha
      match i, ha with
      | 0, ha => injection ha with h; subst h; rfl
      | 1, ha => injection ha with h; subst h; rfl,
     by
      intro e' i hlk
      unfold alookup at hlk
      by_cases h7 : (7 : ℕ) = e'
      · subst h7
        rw [if_pos rfl] at hlk
        injection hlk with h
        subst h
        exact ⟨⟨7⟩, rfl, rfl⟩
      · rw [if_neg h7] at hlk
        unfold alookup at hlk
        by_cases h3 : (3 : ℕ) = e'
        · subst h3
          rw [if_pos rfl] at hlk
          injection hlk with h
          subst h
          exact ⟨⟨3⟩, rfl, rfl⟩
        · rw [if_neg h3] at hlk
          exact absurd hlk (by simp [alookup]),
     by decide⟩

/-- Witness for `C8_event_stream_drain`: the concrete stream — an unknown
record then a `set_input` record — drains to exactly the fold of record
effects. -/
theorem C8_event_stream_drain_witness :
    processEventStream c8State (encodeStream c8Records) =
      foldEffects c8State c8Records :=
  C8_event_stream_drain c8Records c8State
    (by
      intro r hr
      simp only [c8Records, List.mem_cons, List.not_mem_nil, or_false] at hr
      rcases hr with hr | hr
      · subst hr
        refine ⟨by norm_num, by norm_num [setInputTypeTag], by norm_num⟩
      · subst hr
        exact ⟨by norm_num, by norm_num, by norm_num⟩)
    (by
      intro e idx v hm
      simp only [c8Records, List.mem_cons, List.not_mem_nil, or_false] at hm
      rcases hm with hm | hm
      · exact absurd hm (by simp)
      · injection hm with h1 h2 h3
        subst h1
        subst h2
        exact ⟨⟨true, true, ⟨[⟨InType.u32, 4⟩], 1⟩, some []⟩, rfl, rfl,
          fun _ => ⟨⟨⟨InType.u32, 4⟩, rfl, by decide⟩, rfl⟩⟩)

/-- Witness for `C3_animable_time_wraps`: the spec scenario — a 2.0-second
clip advanced from time 1.5 by dt = 1.0 wraps to 0.5
(second step of `update(E, 1.5)`; `update(E, 1.0)` from time 0). -/
theorem C3_animable_time_wraps_witness :
    ((updateAnimable ⟨true, true, true⟩ ⟨some ⟨true, 2⟩, 3/2⟩ 1).time =
        timeMod ((3/2 : ℚ) + 1) 2 ∧
      0 ≤ (updateAnimable ⟨true, true, true⟩ ⟨some ⟨true, 2⟩, 3/2⟩ 1).time ∧
      (updateAnimable ⟨true, true, true⟩ ⟨some ⟨true, 2⟩, 3/2⟩ 1).time < 2) ∧
    timeMod ((3/2 : ℚ) + 1) 2 = 1/2 :=
  ⟨C3_animable_time_wraps ⟨true, true, true⟩ ⟨some ⟨true, 2⟩, 3/2⟩ ⟨true, 2⟩ 1
      rfl rfl rfl rfl rfl (by norm_num),
   by norm_num [timeMod]⟩

end LumixAnim
